import Mathlib

/-!
# Verification of the django-seal attribute-interception layer

Shallow embedding of the `seal` package: the per-instance seal flag
(`src/seal/models.py`, `SealableModel.seal`), the descriptor wrapping helpers
(`make_descriptor_sealable`, `make_remote_field_descriptor_sealable`, the
`class_prepared` receiver `make_field_descriptors_sealable`), and — modelled
from the specification and the repository's own tests where the implementation
file is not part of the sources — the sealable descriptor guard behaviour and
the explicit retrofit entry point `make_model_sealable`.
-/

namespace Seal

/-- Descriptor classes: the plain Django accessor classes and their sealable
variants (the latter named in `src/tests/test_models.py` imports).  `other`
stands for any class the registry does not know. -/
inductive DescClass where
  | deferredAttribute
  | forwardManyToOne
  | forwardOneToOne
  | reverseOneToOne
  | reverseManyToOne
  | manyToMany
  | genericForeignKey
  | reverseGenericManyToOne
  | sealableDeferredAttribute
  | sealableForwardManyToOne
  | sealableForwardOneToOne
  | sealableReverseOneToOne
  | sealableReverseManyToOne
  | sealableManyToMany
  | sealableGenericForeignKey
  | sealableReverseGenericManyToOne
  | other
deriving DecidableEq, Repr

/-- Modelled from the spec: the Guard Registry (§4.2), a process-wide mapping
from accessor class to the sealable (guard-wrapped) class to install; the
implementation file `seal/descriptors.py` holding the dictionary
`sealable_descriptor_classes` is not part of the sources, so the mapping is
reconstructed from the six attribute kinds of the spec and the class names
imported by `src/tests/test_models.py`.  A class absent from the mapping is
left unguarded. -/
def sealable_descriptor_classes : DescClass → Option DescClass
  | .deferredAttribute => some .sealableDeferredAttribute
  | .forwardManyToOne => some .sealableForwardManyToOne
  | .forwardOneToOne => some .sealableForwardOneToOne
  | .reverseOneToOne => some .sealableReverseOneToOne
  | .reverseManyToOne => some .sealableReverseManyToOne
  | .manyToMany => some .sealableManyToMany
  | .genericForeignKey => some .sealableGenericForeignKey
  | .reverseGenericManyToOne => some .sealableReverseGenericManyToOne
  | _ => none

/-- The registry's image is disjoint from its domain: a sealable class is
never itself a key, which is what makes re-wrapping a no-op. -/
theorem sealable_descriptor_classes_image {c c' : DescClass}
    (h : sealable_descriptor_classes c = some c') :
    sealable_descriptor_classes c' = none := by
  cases c <;> (try exact Option.noConfusion h) <;>
    (injection h with h; subst h; rfl)

/-! ## Instance-level guard semantics

`seal/descriptors.py` and `seal/exceptions.py` are not part of the sources;
the guarded accessor behaviour below is modelled from the spec (§4.2, §4.3)
with the safe-value checks pinned by the repository's tests in
`src/tests/test_models.py` (which load concrete field sets via `from_db`,
seal, and assert exactly which accesses raise `UnsealedAttributeAccess`). -/

/-- The three fixed attribute categories named in violation messages
("deferred field", "related field", "many-to-many field"). -/
inductive AttrCategory where
  | deferred
  | related
  | manyToMany
deriving DecidableEq, Repr

/-- The guard violation payload: attribute name, category, and the owning
instance's type name (spec §6: "attribute name, attribute category, and the
instance's type name"). -/
structure UnsealedAttributeAccess where
  field : String
  category : AttrCategory
  model : String
deriving DecidableEq, Repr

/-- The six accessor kinds of the Guard Registry (spec §4.2 table). -/
inductive AttrKind where
  | deferredScalar
  | forwardSingle
  | reverseSingle
  | manyValued
  | genericSingle
  | genericMany
deriving DecidableEq, Repr

/-- A runtime instance: the seal flag plus the caches a guard may consult —
which scalar fields were fetched, which forward relations have their
identifying key (`*_id` attribute) set, and which relations are resolved and
cached (`_state.fields_cache`).  Mutable only through `seal` and the external
persistence layer. -/
structure Instance where
  sealed : Bool
  loadedFields : String → Bool
  relatedKeyCached : String → Bool
  relationCached : String → Bool

/-- `SealableModel.seal` (src/seal/models.py lines 22-27): set the flag,
nothing else.  (Named `sealInstance` as in spec §4.5 because `seal` is a
reserved command name in this Lean environment.) -/
def sealInstance (i : Instance) : Instance :=
  { i with sealed := true }

/-- Modelled from the spec: the per-kind safe-value check of §4.2 consulted by
a guarded accessor before delegating; where the spec's table conflicts with
the repository's tests the tests are followed:
`test_sealed_instance_foreign_key_access` and
`test_sealed_instance_one_to_one_access` load the relation's identifying key
and still assert a raise, so the forward-single check passes only when the
relation itself is resolved and cached;
`test_sealed_instance_generic_foreign_key` loads the content-type/object-id
pair and still asserts a raise, so the generic-single check likewise requires
the resolved object.  Many-valued kinds never pass (spec §4.2: guarded
unconditionally when sealed). -/
def safeValueCheck (k : AttrKind) (i : Instance) (a : String) : Bool :=
  match k with
  | .deferredScalar => i.loadedFields a
  | .forwardSingle => i.relationCached a
  | .reverseSingle => i.relationCached a
  | .manyValued => false
  | .genericSingle => i.relationCached a
  | .genericMany => false

/-- The violation category each accessor kind reports, matching the test
messages ("deferred field weight", "related field location",
"many-to-many field previous_locations"). -/
def categoryOf (k : AttrKind) : AttrCategory :=
  match k with
  | .deferredScalar => .deferred
  | .forwardSingle => .related
  | .reverseSingle => .related
  | .genericSingle => .related
  | .manyValued => .manyToMany
  | .genericMany => .manyToMany

/-- Modelled from the spec: a guarded accessor's `__get__` (§4.3).  `orig` is
the original accessor of the external persistence collaborator, returning its
value together with the number of store queries it performs.  If the instance
is sealed and the safe-value check fails, the guard raises the violation
immediately, performing zero queries; otherwise it delegates unchanged to
`orig`. -/
def guardedGet {α : Type} (k : AttrKind) (modelName a : String) (i : Instance)
    (orig : Instance → α × Nat) : Except UnsealedAttributeAccess α × Nat :=
  if i.sealed && !(safeValueCheck k i a) then
    (Except.error ⟨a, categoryOf k, modelName⟩, 0)
  else
    (Except.ok (orig i).1, (orig i).2)

/-- The sealed `SeaLion` of `test_sealed_instance_foreign_key_access`:
loaded via `from_db('default', ['id', 'location_id'], [1, 1])`, so its
`location` relation's identifying key is cached but the relation itself is
not resolved. -/
def seaLionWithLocationId : Instance :=
  { sealed := true
    loadedFields := fun a => a == "id" || a == "location_id"
    relatedKeyCached := fun a => a == "location"
    relationCached := fun _ => false }

/-- The sealed `Nickname` of `test_sealed_instance_generic_foreign_key`:
loaded via `from_db('default', ['id', 'content_type_id', 'object_id'],
[1, 1, 1])`, so the generic relation's identifying pair is cached but the
related object is not resolved. -/
def nicknameWithKeys : Instance :=
  { sealed := true
    loadedFields := fun a => a == "id" || a == "content_type_id" || a == "object_id"
    relatedKeyCached := fun a => a == "content_object"
    relationCached := fun _ => false }

/-- A sealed instance loaded fully populated, with every cache present, as in
spec §8's scenario "even immediately after the instance was loaded fully
populated". -/
def fullyLoadedSealed : Instance :=
  { sealed := true
    loadedFields := fun _ => true
    relatedKeyCached := fun _ => true
    relationCached := fun _ => true }

/-- An unsealed instance with empty caches. -/
def unsealedEmpty : Instance :=
  { sealed := false
    loadedFields := fun _ => false
    relatedKeyCached := fun _ => false
    relationCached := fun _ => false }

/-- C1: the claim is false on the code.  `test_sealed_instance_foreign_key_access`
loads `['id', 'location_id']` — the related instance's identifying key is
cached — seals the instance, and asserts that reading `location` *raises*
`UnsealedAttributeAccess` ("Cannot fetch related field location on sealed
<SeaLion instance>"): the forward-single safe-value check does not pass on a
cached key alone, and the guarded access performs no query while raising. -/
theorem C1_counterexample :
    seaLionWithLocationId.sealed = true ∧
    seaLionWithLocationId.relatedKeyCached "location" = true ∧
    safeValueCheck .forwardSingle seaLionWithLocationId "location" = false ∧
    guardedGet .forwardSingle "SeaLion" "location" seaLionWithLocationId
        (fun _ => ((), 1)) =
      (Except.error ⟨"location", .related, "SeaLion"⟩, 0) :=
  ⟨rfl, rfl, rfl, rfl⟩

/-- C1 (amended): for a sealed instance, the forward-single-relation
safe-value check passes exactly when the relation is already resolved and
cached; when it is (and only then) the read delegates without raising, while
a cached identifying key alone leaves the access raising the guard violation
with zero queries. -/
theorem C1_amended_forward_single_guard {α : Type} (i : Instance)
    (mn a : String) (orig : Instance → α × Nat) (hs : i.sealed = true) :
    (i.relationCached a = true →
      guardedGet .forwardSingle mn a i orig = (Except.ok (orig i).1, (orig i).2)) ∧
    (i.relationCached a = false →
      guardedGet .forwardSingle mn a i orig = (Except.error ⟨a, .related, mn⟩, 0)) := by
  constructor <;> intro hc <;>
    simp [guardedGet, safeValueCheck, categoryOf, hs, hc]

/-- Witness for `C1_amended_forward_single_guard` at the test's `SeaLion`
instance. -/
theorem C1_amended_forward_single_guard_witness :
    seaLionWithLocationId.sealed = true ∧
    (seaLionWithLocationId.relationCached "location" = false →
      guardedGet .forwardSingle "SeaLion" "location" seaLionWithLocationId
          (fun _ => ((), 1)) =
        (Except.error ⟨"location", .related, "SeaLion"⟩, 0)) :=
  ⟨rfl, (C1_amended_forward_single_guard seaLionWithLocationId "SeaLion"
    "location" (fun _ => ((), 1)) rfl).2⟩

/-- C4: on a sealed instance, every many-valued relation accessor (plain or
generic) raises the guard violation unconditionally — its safe-value check
never passes, whatever the instance's caches hold. -/
theorem C4_many_valued_always_guarded {α : Type} (k : AttrKind) (i : Instance)
    (mn a : String) (orig : Instance → α × Nat) (hs : i.sealed = true)
    (hk : k = .manyValued ∨ k = .genericMany) :
    safeValueCheck k i a = false ∧
    guardedGet k mn a i orig = (Except.error ⟨a, .manyToMany, mn⟩, 0) := by
  rcases hk with hk | hk <;> subst hk <;>
    exact ⟨rfl, by simp [guardedGet, safeValueCheck, categoryOf, hs]⟩

/-- Witness for `C4_many_valued_always_guarded`: a sealed instance loaded
fully populated with every cache present still has its many-to-many accessor
raise. -/
theorem C4_many_valued_always_guarded_witness :
    fullyLoadedSealed.sealed = true ∧
    (AttrKind.manyValued = .manyValued ∨ AttrKind.manyValued = .genericMany) ∧
    guardedGet .manyValued "SeaLion" "previous_locations" fullyLoadedSealed
        (fun _ => ((), 1)) =
      (Except.error ⟨"previous_locations", .manyToMany, "SeaLion"⟩, 0) :=
  ⟨rfl, Or.inl rfl,
    (C4_many_valued_always_guarded .manyValued fullyLoadedSealed "SeaLion"
      "previous_locations" (fun _ => ((), 1)) rfl (Or.inl rfl)).2⟩

/-- C5: on an unsealed instance a guarded accessor of any kind delegates
unchanged to the original accessor: it returns exactly the original's value
and performs exactly the original's queries, never raising, regardless of
cache state. -/
theorem C5_unsealed_delegates {α : Type} (k : AttrKind) (i : Instance)
    (mn a : String) (orig : Instance → α × Nat) (hu : i.sealed = false) :
    guardedGet k mn a i orig = (Except.ok (orig i).1, (orig i).2) := by
  simp [guardedGet, hu]

/-- Witness for `C5_unsealed_delegates` at an unsealed empty-cache instance
and an original accessor returning `42` with one query. -/
theorem C5_unsealed_delegates_witness :
    unsealedEmpty.sealed = false ∧
    guardedGet .manyValued "SeaLion" "previous_locations" unsealedEmpty
        (fun _ => (42, 1)) = (Except.ok 42, 1) :=
  ⟨rfl, C5_unsealed_delegates .manyValued unsealedEmpty "SeaLion"
    "previous_locations" (fun _ => (42, 1)) rfl⟩

/-- C7: `seal` sets the sealed flag to true unconditionally (it is a total
function with no failure path), is idempotent, and — `sealInstance` being the
only operation of the module that writes instance state, see
`SealableModel.seal` in src/seal/models.py — nothing resets the flag; sealing
twice yields the same instance and hence the same behaviour on every
subsequent guarded access. -/
theorem C7_seal_unconditional_idempotent_terminal :
    ∀ i : Instance,
      sealInstance i = { i with sealed := true } ∧
      (sealInstance i).sealed = true ∧
      sealInstance (sealInstance i) = sealInstance i ∧
      (∀ (k : AttrKind) (mn a : String) (orig : Instance → Nat × Nat),
        guardedGet k mn a (sealInstance (sealInstance i)) orig =
          guardedGet k mn a (sealInstance i) orig) :=
  fun _ => ⟨rfl, rfl, rfl, fun _ _ _ _ => rfl⟩

/-- C10: on a sealed instance whose generic-relation safe-value check fails,
the guarded access raises the violation built from information already on the
instance and performs zero queries — no store fetch and no metadata lookup. -/
theorem C10_generic_fail_fast {α : Type} (i : Instance) (mn a : String)
    (orig : Instance → α × Nat) (hs : i.sealed = true)
    (hc : safeValueCheck .genericSingle i a = false) :
    guardedGet .genericSingle mn a i orig = (Except.error ⟨a, .related, mn⟩, 0) := by
  simp [guardedGet, categoryOf, hs, hc]

/-- Witness for `C10_generic_fail_fast` at the test's `Nickname` instance,
whose content-type/object-id pair is cached but whose related object is not. -/
theorem C10_generic_fail_fast_witness :
    nicknameWithKeys.sealed = true ∧
    safeValueCheck .genericSingle nicknameWithKeys "content_object" = false ∧
    guardedGet .genericSingle "Nickname" "content_object" nicknameWithKeys
        (fun _ => ((), 1)) =
      (Except.error ⟨"content_object", .related, "Nickname"⟩, 0) :=
  ⟨rfl, rfl, C10_generic_fail_fast nicknameWithKeys "Nickname"
    "content_object" (fun _ => ((), 1)) rfl rfl⟩

/-! ## Type-level state: models, the apps registry, and descriptor wrapping

This part embeds `src/seal/models.py`'s `make_descriptor_sealable`,
`make_remote_field_descriptor_sealable` and the `class_prepared` receiver
`make_field_descriptors_sealable`, together with the external collaborators
they use (the apps registry and `lazy_related_operation`, modelled from spec
§6) and the retrofit entry point `make_model_sealable` (modelled from spec
§4.5, its implementation not being part of the sources). -/

/-- A relation's remote side: the target model's name (possibly a forward
reference to a not-yet-defined model) and the reverse accessor name
(`remote_field.get_accessor_name()`). -/
structure Remote where
  target : String
  accessor : String
deriving DecidableEq, Repr

/-- A locally declared field of a model: its name and, for relation fields,
its remote side.  (`opts.local_fields + opts.local_many_to_many +
opts.private_fields` in the receiver.) -/
structure Field where
  name : String
  remote : Option Remote
deriving DecidableEq, Repr

/-- An entity type: its name, whether it opts into sealing
(`issubclass(sender, SealableModel)`), the abstract/proxy flags, its locally
declared fields, and its accessor table mapping attribute names to the
descriptor class currently installed (absence models `AttributeError` on
`getattr`, e.g. a hidden reverse accessor). -/
structure ModelState where
  name : String
  sealable : Bool
  abstract : Bool
  proxy : Bool
  fields : List Field
  attrs : String → Option DescClass

/-- The process-wide apps registry: the defined models by name, the
registration order, and the queue of Resolution-Pending Entries
`(target model name, reverse accessor name)` of `lazy_related_operation`. -/
structure AppState where
  modelOf : String → Option ModelState
  definedNames : List String
  pending : List (String × String)

/-- Whether the named model is defined and opts into sealing. -/
def sealableOf (st : AppState) (n : String) : Bool :=
  match st.modelOf n with
  | some m => m.sealable
  | none => false

/-- The descriptor class installed for attribute `a` of model `n`, if any. -/
def attrAt (st : AppState) (n a : String) : Option DescClass :=
  match st.modelOf n with
  | some m => m.attrs a
  | none => none

/-- The accessor-table effect of `make_descriptor_sealable(model, attname)`
(src/seal/models.py lines 30-41): look the descriptor up (a missing
attribute — the hidden reverse accessor case — is a silent no-op), and if the
registry holds a sealable class for its class, swap the class. -/
def wrapAttrFn (f : String → Option DescClass) (a : String) :
    String → Option DescClass :=
  match f a with
  | none => f
  | some c =>
    match sealable_descriptor_classes c with
    | none => f
    | some c' => fun x => if x = a then some c' else f x

/-- The single-slot effect of descriptor wrapping on one attribute value. -/
def wrapClass (o : Option DescClass) : Option DescClass :=
  match o with
  | none => none
  | some c =>
    match sealable_descriptor_classes c with
    | none => some c
    | some c' => some c'

/-- `make_descriptor_sealable` on the registry: wrap attribute `a` of the
model named `n` (no-op when `n` is not defined). -/
def make_descriptor_sealable (st : AppState) (n a : String) : AppState :=
  match st.modelOf n with
  | none => st
  | some m =>
    { st with
      modelOf := fun x =>
        if x = n then some { m with attrs := wrapAttrFn m.attrs a }
        else st.modelOf x }

/-- `make_remote_field_descriptor_sealable(model, related_model, remote_field)`
(src/seal/models.py lines 44-51): if the related model is not a
`SealableModel` subclass, return without wrapping; otherwise wrap the reverse
accessor on the related model. -/
def make_remote_field_descriptor_sealable (st : AppState)
    (relatedModel accessorName : String) : AppState :=
  match st.modelOf relatedModel with
  | none => st
  | some m =>
    if m.sealable then make_descriptor_sealable st relatedModel accessorName
    else st

/-- Modelled from the spec: `lazy_related_operation` /
`resolveForwardReference` (§6) — the implementation lives in the external
schema collaborator, not in the sources.  If the relation's target model is
already defined the reverse-side wrap runs now; otherwise a
Resolution-Pending Entry is queued until the target's preparation event. -/
def lazy_related_operation (st : AppState) (target accessorName : String) :
    AppState :=
  if (st.modelOf target).isSome then
    make_remote_field_descriptor_sealable st target accessorName
  else
    { st with pending := st.pending ++ [(target, accessorName)] }

/-- One step of the receiver's field loop: wrap the field's forward
descriptor and, for a relation, queue or run the reverse-side wrap. -/
def recvStep (n : String) (st : AppState) (f : Field) : AppState :=
  let st1 := make_descriptor_sealable st n f.name
  match f.remote with
  | none => st1
  | some r => lazy_related_operation st1 r.target r.accessor

/-- `make_field_descriptors_sealable` (src/seal/models.py lines 54-73), the
`class_prepared` receiver body: skip non-`SealableModel` senders and
abstract/proxy models, else walk the local fields. -/
def make_field_descriptors_sealable (st : AppState) (m : ModelState) :
    AppState :=
  if m.sealable = false then st
  else if m.abstract || m.proxy then st
  else m.fields.foldl (recvStep m.name) st

/-- Modelled from the spec: the drain of Resolution-Pending Entries when a
type becomes defined (§3: "every entry is eventually executed exactly once,
when its target type's preparation event fires") — Django's pending-operation
machinery, external to the sources. -/
def drainPending (st : AppState) (n : String) : AppState :=
  let mine := st.pending.filter (fun p => p.1 == n)
  let rest := st.pending.filter (fun p => !(p.1 == n))
  mine.foldl (fun s p => make_remote_field_descriptor_sealable s p.1 p.2)
    { st with pending := rest }

/-- Register a newly defined model in the apps registry. -/
def setModel (st : AppState) (n : String) (m : ModelState) : AppState :=
  { modelOf := fun x => if x = n then some m else st.modelOf x
    definedNames := st.definedNames ++ [n]
    pending := st.pending }

/-- The "entity type fully defined" event (`class_prepared`): register the
type, run the pending entries targeting it, then run the receiver on it. -/
def class_prepared (st : AppState) (m : ModelState) : AppState :=
  make_field_descriptors_sealable (drainPending (setModel st m.name m) m.name) m

/-- The reverse accessor names that relations of model `x` targeting model
`n` contribute to `n`. -/
def modelRelatedAccessors (x : ModelState) (n : String) : List String :=
  x.fields.filterMap fun f =>
    match f.remote with
    | some r => if r.target = n then some r.accessor else none
    | none => none

/-- `opts.related_objects` of model `n`: the reverse accessors on `n`
contributed by the defined models' relations targeting `n` (computed from the
apps registry, as Django's meta does). -/
def related_objects (st : AppState) (n : String) : List String :=
  st.definedNames.flatMap fun d =>
    match st.modelOf d with
    | some x => modelRelatedAccessors x n
    | none => []

/-- Modelled from the spec: `make_model_sealable` (§4.5 `makeTypeSealable`) —
imported by `src/tests/test_models.py` from `seal.models` but not defined in
the sources.  Reconstructed as "the equivalent of the receiver's body run
synchronously": wrap each local field's forward descriptor; for relations run
the opt-in gated `make_remote_field_descriptor_sealable` eagerly (no
queueing; a no-op when the target is undefined or does not opt in — the test
`test_make_non_sealable_model_subclass` asserts the defined non-opt-in `Foo`
keeps unwrapped reverse accessors after `make_model_sealable(Bar)`); then
wrap the model's own reverse accessors (`related_objects`) directly — the
same test asserts `make_model_sealable(Foo)` wraps `Foo.fk_bar` although
`Foo` never opts in. -/
def make_model_sealable (st : AppState) (n : String) : AppState :=
  match st.modelOf n with
  | none => st
  | some m =>
    let st1 := m.fields.foldl (fun s f =>
      let s1 := make_descriptor_sealable s n f.name
      match f.remote with
      | none => s1
      | some r => make_remote_field_descriptor_sealable s1 r.target r.accessor) st
    (related_objects st1 n).foldl (fun s a => make_descriptor_sealable s n a) st1

/-- A startup-check diagnostic (`django.core.checks.Error`). -/
structure CheckError where
  errorId : String
  obj : String
deriving DecidableEq, Repr

/-- Modelled from the spec: the startup diagnostic of §6/§7 — a sealable
manager bound to model `n` reports `seal.E001` exactly when `n` lacks the
opt-in marker, as pinned by `SealableManagerTests.test_non_sealable_model`
(`seal/managers.py` is not part of the sources). -/
def sealableManagerCheck (st : AppState) (n : String) : List CheckError :=
  match st.modelOf n with
  | some m => if m.sealable then [] else [⟨"seal.E001", n⟩]
  | none => []

/-- Modelled from the spec: the *spec's own contract* for `makeSealable`
(§6: "fails with a configuration error … if invoked on a type that the
framework does not recognize as eligible").  Stated only to compare that
contract against the behaviour the repository's tests pin for
`make_model_sealable`. -/
def makeSealable_specContract (st : AppState) (n : String) :
    Except CheckError AppState :=
  match st.modelOf n with
  | none => Except.error ⟨"seal.E001", n⟩
  | some m =>
    if m.sealable then Except.ok (make_model_sealable st n)
    else Except.error ⟨"seal.E001", n⟩

/-- The empty apps registry. -/
def initState : AppState :=
  { modelOf := fun _ => none, definedNames := [], pending := [] }

/-- The `Foo` of `test_make_non_sealable_model_subclass`: a plain
(non-`SealableModel`) model with no local relation fields, carrying the
reverse accessors contributed by `Bar`'s relations. -/
def fooModel : ModelState :=
  { name := "Foo", sealable := false, abstract := false, proxy := false
    fields := []
    attrs := fun a =>
      if a = "fk_bar" then some .reverseManyToOne
      else if a = "o2o_bar" then some .reverseOneToOne
      else if a = "m2m_bar" then some .manyToMany
      else none }

/-- The `Bar` of `test_make_non_sealable_model_subclass`: a plain model with
a boolean field and a foreign key, one-to-one and many-to-many to `Foo`. -/
def barModel : ModelState :=
  { name := "Bar", sealable := false, abstract := false, proxy := false
    fields := [⟨"foo", none⟩,
               ⟨"fk", some ⟨"Foo", "fk_bar"⟩⟩,
               ⟨"o2o", some ⟨"Foo", "o2o_bar"⟩⟩,
               ⟨"m2m", some ⟨"Foo", "m2m_bar"⟩⟩]
    attrs := fun a =>
      if a = "foo" then some .deferredAttribute
      else if a = "fk" then some .forwardManyToOne
      else if a = "o2o" then some .forwardOneToOne
      else if a = "m2m" then some .manyToMany
      else none }

/-- The registry after `Foo` and `Bar` are defined (both plain models, so the
`class_prepared` receiver skips them both). -/
def fooBarState : AppState :=
  class_prepared (class_prepared initState fooModel) barModel

/-! ### Wrapping micro-operations

Every accessor mutation performed by the module factors through two
primitives: `make_descriptor_sealable` (direct wrap) and
`make_remote_field_descriptor_sealable` (opt-in gated wrap).  The algebra of
these operations — commutation, idempotence, and their action on single
registry slots — underlies the idempotence and order-independence claims. -/

/-- A wrapping micro-operation `(remote?, target model, attribute)`:
`remote? = true` is the opt-in gated reverse-side variant. -/
abbrev WOp := Bool × String × String

/-- The model-level effect of one micro-operation. -/
def wOpFn (o : WOp) (m : ModelState) : ModelState :=
  if o.1 then
    (if m.sealable then { m with attrs := wrapAttrFn m.attrs o.2.2 } else m)
  else { m with attrs := wrapAttrFn m.attrs o.2.2 }

/-- Run one micro-operation on the registry. -/
def applyWOp (st : AppState) (o : WOp) : AppState :=
  if o.1 then make_remote_field_descriptor_sealable st o.2.1 o.2.2
  else make_descriptor_sealable st o.2.1 o.2.2

/-- Run a list of micro-operations left to right. -/
def applyWOps (st : AppState) (l : List WOp) : AppState :=
  l.foldl applyWOp st

/-- The `modelOf`-map effect of one micro-operation. -/
def applyWOpM (mo : String → Option ModelState) (o : WOp) :
    String → Option ModelState :=
  fun x => if x = o.2.1 then (mo o.2.1).map (wOpFn o) else mo x

/-- The `modelOf`-map effect of a list of micro-operations. -/
def applyWOpsM (mo : String → Option ModelState) (l : List WOp) :
    String → Option ModelState :=
  l.foldl applyWOpM mo

theorem wrapAttrFn_apply (f : String → Option DescClass) (a x : String) :
    wrapAttrFn f a x = if x = a then wrapClass (f a) else f x := by
  unfold wrapAttrFn wrapClass
  cases hfa : f a with
  | none =>
    by_cases hx : x = a
    · subst hx; simp [hfa]
    · simp [hx]
  | some c =>
    cases hc : sealable_descriptor_classes c with
    | none =>
      by_cases hx : x = a
      · subst hx; simp [hc, hfa]
      · simp [hc, hx]
    | some c' => by_cases hx : x = a <;> simp [hc, hx]

theorem wrapClass_idem (o : Option DescClass) :
    wrapClass (wrapClass o) = wrapClass o := by
  cases o with
  | none => rfl
  | some c =>
    cases hc : sealable_descriptor_classes c with
    | none => simp [wrapClass, hc]
    | some c' => simp [wrapClass, hc, sealable_descriptor_classes_image hc]

theorem wrapAttrFn_comm (f : String → Option DescClass) (a b : String) :
    wrapAttrFn (wrapAttrFn f a) b = wrapAttrFn (wrapAttrFn f b) a := by
  by_cases hab : a = b
  · subst hab; rfl
  · funext x
    simp only [wrapAttrFn_apply]
    by_cases hxa : x = a <;> by_cases hxb : x = b <;>
      simp_all [wrapAttrFn_apply]

theorem wrapAttrFn_idem (f : String → Option DescClass) (a : String) :
    wrapAttrFn (wrapAttrFn f a) a = wrapAttrFn f a := by
  funext x
  simp only [wrapAttrFn_apply]
  by_cases hx : x = a <;> simp [hx, wrapClass_idem]

theorem wOpFn_sealable (o : WOp) (m : ModelState) :
    (wOpFn o m).sealable = m.sealable := by
  by_cases h1 : o.1 <;> by_cases h2 : m.sealable <;> simp [wOpFn, h1, h2]

theorem wOpFn_fields (o : WOp) (m : ModelState) :
    (wOpFn o m).fields = m.fields := by
  by_cases h1 : o.1 <;> by_cases h2 : m.sealable <;> simp [wOpFn, h1, h2]

theorem wOpFn_comm (o1 o2 : WOp) (m : ModelState) :
    wOpFn o2 (wOpFn o1 m) = wOpFn o1 (wOpFn o2 m) := by
  by_cases h1 : o1.1 <;> by_cases h2 : o2.1 <;> by_cases hs : m.sealable <;>
    simp [wOpFn, h1, h2, hs, wrapAttrFn_comm]

theorem wOpFn_idem (o : WOp) (m : ModelState) :
    wOpFn o (wOpFn o m) = wOpFn o m := by
  by_cases h1 : o.1 <;> by_cases hs : m.sealable <;>
    simp [wOpFn, h1, hs, wrapAttrFn_idem]

theorem make_descriptor_sealable_modelOf (st : AppState) (n a : String) :
    (make_descriptor_sealable st n a).modelOf = fun x =>
      if x = n then
        (st.modelOf n).map fun m => { m with attrs := wrapAttrFn m.attrs a }
      else st.modelOf x := by
  funext x
  unfold make_descriptor_sealable
  cases h : st.modelOf n with
  | none =>
    by_cases hx : x = n
    · subst hx; simp [h]
    · simp [hx]
  | some m => by_cases hx : x = n <;> simp [h, hx]

theorem make_remote_modelOf (st : AppState) (n a : String) :
    (make_remote_field_descriptor_sealable st n a).modelOf = fun x =>
      if x = n then
        (st.modelOf n).map fun m =>
          if m.sealable then { m with attrs := wrapAttrFn m.attrs a } else m
      else st.modelOf x := by
  funext x
  rcases h : st.modelOf n with _ | m
  · simp only [make_remote_field_descriptor_sealable, h]
    by_cases hx : x = n
    · subst hx; simp [h]
    · simp [hx]
  · simp only [make_remote_field_descriptor_sealable, h]
    by_cases hs : m.sealable
    · rw [if_pos hs, make_descriptor_sealable_modelOf]
      by_cases hx : x = n <;> simp [h, hx, hs]
    · rw [if_neg hs]
      by_cases hx : x = n <;> simp [h, hx, hs]

theorem applyWOp_modelOf (st : AppState) (o : WOp) :
    (applyWOp st o).modelOf = applyWOpM st.modelOf o := by
  obtain ⟨b, n, a⟩ := o
  cases b
  · rw [show applyWOp st (false, n, a) = make_descriptor_sealable st n a from rfl,
      make_descriptor_sealable_modelOf]
    rfl
  · rw [show applyWOp st (true, n, a) =
      make_remote_field_descriptor_sealable st n a from rfl, make_remote_modelOf]
    rfl

theorem applyWOp_pending (st : AppState) (o : WOp) :
    (applyWOp st o).pending = st.pending := by
  obtain ⟨b, n, a⟩ := o
  cases b <;>
    simp only [applyWOp, make_remote_field_descriptor_sealable,
      make_descriptor_sealable, Bool.false_eq_true, if_false, if_true] <;>
    rcases h : st.modelOf n with _ | m <;> simp [make_descriptor_sealable, h] <;>
    split <;> simp [make_descriptor_sealable, h]

theorem applyWOp_definedNames (st : AppState) (o : WOp) :
    (applyWOp st o).definedNames = st.definedNames := by
  obtain ⟨b, n, a⟩ := o
  cases b <;>
    simp only [applyWOp, make_remote_field_descriptor_sealable,
      make_descriptor_sealable, Bool.false_eq_true, if_false, if_true] <;>
    rcases h : st.modelOf n with _ | m <;> simp [make_descriptor_sealable, h] <;>
    split <;> simp [make_descriptor_sealable, h]

theorem applyWOps_modelOf (st : AppState) (l : List WOp) :
    (applyWOps st l).modelOf = applyWOpsM st.modelOf l := by
  induction l generalizing st with
  | nil => rfl
  | cons o t ih =>
    show (applyWOps (applyWOp st o) t).modelOf = applyWOpsM (applyWOpM st.modelOf o) t
    rw [ih, applyWOp_modelOf]

theorem applyWOps_pending (st : AppState) (l : List WOp) :
    (applyWOps st l).pending = st.pending := by
  induction l generalizing st with
  | nil => rfl
  | cons o t ih =>
    show (applyWOps (applyWOp st o) t).pending = st.pending
    rw [ih, applyWOp_pending]

theorem applyWOps_definedNames (st : AppState) (l : List WOp) :
    (applyWOps st l).definedNames = st.definedNames := by
  induction l generalizing st with
  | nil => rfl
  | cons o t ih =>
    show (applyWOps (applyWOp st o) t).definedNames = st.definedNames
    rw [ih, applyWOp_definedNames]

theorem wOpFn_comp_comm (o1 o2 : WOp) :
    wOpFn o2 ∘ wOpFn o1 = wOpFn o1 ∘ wOpFn o2 := by
  funext m
  exact wOpFn_comm o1 o2 m

theorem applyWOpM_comm (mo : String → Option ModelState) (o1 o2 : WOp) :
    applyWOpM (applyWOpM mo o1) o2 = applyWOpM (applyWOpM mo o2) o1 := by
  funext x
  simp only [applyWOpM]
  by_cases h : o1.2.1 = o2.2.1
  · rw [← h]
    by_cases hx : x = o1.2.1
    · simp [hx, Option.map_map, wOpFn_comp_comm]
    · simp [hx]
  · by_cases hx1 : x = o1.2.1
    · have hx2 : ¬x = o2.2.1 := fun hh => h (hx1.symm.trans hh)
      simp [hx1, hx2, h]
    · by_cases hx2 : x = o2.2.1
      · simp [hx1, hx2, Ne.symm h]
      · simp [hx1, hx2]

theorem applyWOpM_idem (mo : String → Option ModelState) (o : WOp) :
    applyWOpM (applyWOpM mo o) o = applyWOpM mo o := by
  funext x
  simp only [applyWOpM]
  by_cases hx : x = o.2.1
  · have hcomp : wOpFn o ∘ wOpFn o = wOpFn o := by
      funext m; exact wOpFn_idem o m
    simp [hx, Option.map_map, hcomp]
  · simp [hx]

theorem applyWOpM_applyWOpsM (mo : String → Option ModelState) (o : WOp)
    (l : List WOp) :
    applyWOpM (applyWOpsM mo l) o = applyWOpsM (applyWOpM mo o) l := by
  induction l generalizing mo with
  | nil => rfl
  | cons p t ih =>
    show applyWOpM (applyWOpsM (applyWOpM mo p) t) o = _
    rw [ih, applyWOpM_comm]
    rfl

theorem applyWOpsM_append (mo : String → Option ModelState) (l1 l2 : List WOp) :
    applyWOpsM mo (l1 ++ l2) = applyWOpsM (applyWOpsM mo l1) l2 :=
  List.foldl_append ..

theorem applyWOpsM_twice (mo : String → Option ModelState) (l : List WOp) :
    applyWOpsM (applyWOpsM mo l) l = applyWOpsM mo l := by
  induction l generalizing mo with
  | nil => rfl
  | cons o t ih =>
    have step : ∀ X : String → Option ModelState,
        applyWOpsM X (o :: t) = applyWOpsM (applyWOpM X o) t := fun _ => rfl
    rw [step, step, applyWOpM_applyWOpsM, applyWOpM_idem]
    exact ih (applyWOpM mo o)

theorem applyWOpsM_perm (mo : String → Option ModelState) {l1 l2 : List WOp}
    (h : l1.Perm l2) : applyWOpsM mo l1 = applyWOpsM mo l2 :=
  h.foldl_eq' (fun o1 _ o2 _ mo' => applyWOpM_comm mo' o1 o2) mo

/-- The registry slot analogue of `attrAt` on a `modelOf` map. -/
def attrAtM (mo : String → Option ModelState) (t a : String) :
    Option DescClass :=
  match mo t with
  | some m => m.attrs a
  | none => none

/-- The opt-in flag analogue of `sealableOf` on a `modelOf` map. -/
def sealableOfM (mo : String → Option ModelState) (t : String) : Bool :=
  match mo t with
  | some m => m.sealable
  | none => false

theorem attrAt_eq (st : AppState) (t a : String) :
    attrAt st t a = attrAtM st.modelOf t a := rfl

theorem sealableOf_eq (st : AppState) (t : String) :
    sealableOf st t = sealableOfM st.modelOf t := rfl

theorem applyWOpM_sealableOfM (mo : String → Option ModelState) (o : WOp)
    (t : String) : sealableOfM (applyWOpM mo o) t = sealableOfM mo t := by
  unfold sealableOfM applyWOpM
  by_cases hx : t = o.2.1
  · rw [hx]
    rcases hmo : mo o.2.1 with _ | m <;> simp [hmo, wOpFn_sealable]
  · simp [hx]

theorem applyWOpsM_sealableOfM (mo : String → Option ModelState) (l : List WOp)
    (t : String) : sealableOfM (applyWOpsM mo l) t = sealableOfM mo t := by
  induction l generalizing mo with
  | nil => rfl
  | cons o r ih =>
    show sealableOfM (applyWOpsM (applyWOpM mo o) r) t = _
    rw [ih, applyWOpM_sealableOfM]

theorem applyWOpM_isSome (mo : String → Option ModelState) (o : WOp)
    (t : String) : ((applyWOpM mo o) t).isSome = (mo t).isSome := by
  unfold applyWOpM
  by_cases hx : t = o.2.1
  · rw [hx]
    rcases hmo : mo o.2.1 with _ | m <;> simp [hmo]
  · simp [hx]

theorem applyWOpsM_isSome (mo : String → Option ModelState) (l : List WOp)
    (t : String) : ((applyWOpsM mo l) t).isSome = (mo t).isSome := by
  induction l generalizing mo with
  | nil => rfl
  | cons o r ih =>
    show ((applyWOpsM (applyWOpM mo o) r) t).isSome = _
    rw [ih, applyWOpM_isSome]

theorem applyWOpM_fieldsMap (mo : String → Option ModelState) (o : WOp)
    (t : String) :
    ((applyWOpM mo o) t).map ModelState.fields = (mo t).map ModelState.fields := by
  unfold applyWOpM
  by_cases hx : t = o.2.1
  · rw [hx]
    rcases hmo : mo o.2.1 with _ | m <;> simp [hmo, wOpFn_fields]
  · simp [hx]

theorem applyWOpsM_fieldsMap (mo : String → Option ModelState) (l : List WOp)
    (t : String) :
    ((applyWOpsM mo l) t).map ModelState.fields = (mo t).map ModelState.fields := by
  induction l generalizing mo with
  | nil => rfl
  | cons o r ih =>
    show ((applyWOpsM (applyWOpM mo o) r) t).map ModelState.fields = _
    rw [ih, applyWOpM_fieldsMap]

/-- One micro-operation changes a registry slot either not at all or to its
wrapped value. -/
theorem wOpFn_attrs_cases (o : WOp) (m : ModelState) (a : String) :
    (wOpFn o m).attrs a = m.attrs a ∨
    (wOpFn o m).attrs a = wrapClass (m.attrs a) := by
  by_cases hskip : o.1 = true ∧ m.sealable = false
  · left
    simp [wOpFn, hskip.1, hskip.2]
  · have hw : (wOpFn o m).attrs = wrapAttrFn m.attrs o.2.2 := by
      by_cases hb : o.1 <;> by_cases hs : m.sealable <;>
        simp [wOpFn, hb, hs] <;> exact absurd ⟨by simp [hb], by simp [hs]⟩ hskip
    rw [hw, wrapAttrFn_apply]
    by_cases ha : a = o.2.2
    · right; rw [if_pos ha, ha]
    · left; rw [if_neg ha]

theorem applyWOpM_attrAtM_cases (mo : String → Option ModelState) (o : WOp)
    (t a : String) :
    attrAtM (applyWOpM mo o) t a = attrAtM mo t a ∨
    attrAtM (applyWOpM mo o) t a = wrapClass (attrAtM mo t a) := by
  unfold attrAtM applyWOpM
  by_cases hx : t = o.2.1
  · rw [hx]
    rcases hmo : mo o.2.1 with _ | m
    · left; simp [hmo]
    · simpa [hmo] using wOpFn_attrs_cases o m a
  · left; simp [hx]

/-- A remote micro-operation aimed at a defined, opted-in model wraps the
slot it targets. -/
theorem applyWOpM_attrAtM_hit (mo : String → Option ModelState) (t a : String)
    (hs : sealableOfM mo t = true) :
    attrAtM (applyWOpM mo ((true : Bool), t, a)) t a =
      wrapClass (attrAtM mo t a) := by
  unfold sealableOfM at hs
  rcases hmo : mo t with _ | m
  · rw [hmo] at hs; cases hs
  · rw [hmo] at hs
    have hs' : m.sealable = true := hs
    unfold attrAtM applyWOpM
    simp [hmo, wOpFn, hs', wrapAttrFn_apply]

/-- A slot holding a class outside the registry's domain (in particular an
already-wrapped class) is never changed again. -/
theorem applyWOpsM_attr_stable (mo : String → Option ModelState) (l : List WOp)
    (t a : String) (cv : DescClass)
    (hcv : sealable_descriptor_classes cv = none)
    (h : attrAtM mo t a = some cv) :
    attrAtM (applyWOpsM mo l) t a = some cv := by
  induction l generalizing mo with
  | nil => exact h
  | cons o r ih =>
    show attrAtM (applyWOpsM (applyWOpM mo o) r) t a = some cv
    apply ih
    rcases applyWOpM_attrAtM_cases mo o t a with hc | hc
    · rw [hc, h]
    · rw [hc, h]; simp [wrapClass, hcv]

/-- Once a remote micro-operation for `(t, a)` occurs in a run over an
opted-in model `t` whose slot holds a registry-domain class, the slot ends
wrapped. -/
theorem applyWOpsM_attr_estab (mo : String → Option ModelState) (l : List WOp)
    (t a : String) (c c' : DescClass)
    (hc : sealable_descriptor_classes c = some c')
    (hseal : sealableOfM mo t = true)
    (hmem : ((true : Bool), t, a) ∈ l)
    (hstart : attrAtM mo t a = some c ∨ attrAtM mo t a = some c') :
    attrAtM (applyWOpsM mo l) t a = some c' := by
  induction l generalizing mo with
  | nil => cases hmem
  | cons o r ih =>
    show attrAtM (applyWOpsM (applyWOpM mo o) r) t a = some c'
    by_cases ho : o = ((true : Bool), t, a)
    · subst ho
      have h1 : attrAtM (applyWOpM mo ((true : Bool), t, a)) t a = some c' := by
        rw [applyWOpM_attrAtM_hit mo t a hseal]
        rcases hstart with h | h <;> rw [h] <;>
          simp [wrapClass, hc, sealable_descriptor_classes_image hc]
      exact applyWOpsM_attr_stable _ r t a c'
        (sealable_descriptor_classes_image hc) h1
    · have hmem' : ((true : Bool), t, a) ∈ r := by
        rcases List.mem_cons.mp hmem with h | h
        · exact absurd h.symm ho
        · exact h
      apply ih (applyWOpM mo o)
      · rw [applyWOpM_sealableOfM]; exact hseal
      · exact hmem'
      · rcases applyWOpM_attrAtM_cases mo o t a with hcase | hcase
        · rw [hcase]; exact hstart
        · rw [hcase]
          rcases hstart with h | h <;> rw [h]
          · right; simp [wrapClass, hc]
          · right; simp [wrapClass, sealable_descriptor_classes_image hc]

/-- Two registries with equal components are equal. -/
theorem appState_ext (s1 s2 : AppState) (h1 : s1.modelOf = s2.modelOf)
    (h2 : s1.definedNames = s2.definedNames) (h3 : s1.pending = s2.pending) :
    s1 = s2 := by
  cases s1; cases s2; simp_all

theorem applyWOps_append (st : AppState) (l1 l2 : List WOp) :
    applyWOps st (l1 ++ l2) = applyWOps (applyWOps st l1) l2 :=
  List.foldl_append ..

theorem applyWOps_twice (st : AppState) (l : List WOp) :
    applyWOps (applyWOps st l) l = applyWOps st l := by
  apply appState_ext
  · rw [applyWOps_modelOf, applyWOps_modelOf, applyWOpsM_twice]
  · rw [applyWOps_definedNames, applyWOps_definedNames]
  · rw [applyWOps_pending, applyWOps_pending]

/-- The micro-operations of one field in `make_model_sealable`'s field loop. -/
def fieldWOps (n : String) (f : Field) : List WOp :=
  ((false : Bool), n, f.name) :: (match f.remote with
    | none => []
    | some r => [((true : Bool), r.target, r.accessor)])

theorem mms_fields_foldl_eq (n : String) (fs : List Field) (st : AppState) :
    fs.foldl (fun s f =>
      let s1 := make_descriptor_sealable s n f.name
      match f.remote with
      | none => s1
      | some r => make_remote_field_descriptor_sealable s1 r.target r.accessor) st
    = applyWOps st (fs.flatMap (fieldWOps n)) := by
  induction fs generalizing st with
  | nil => rfl
  | cons f t ih =>
    rw [List.foldl_cons, List.flatMap_cons, applyWOps_append, ih]
    congr 1
    cases hr : f.remote with
    | none => simp only [fieldWOps, hr]; rfl
    | some r => simp only [fieldWOps, hr]; rfl

theorem ros_foldl_eq (n : String) (ros : List String) (st : AppState) :
    ros.foldl (fun s a => make_descriptor_sealable s n a) st =
      applyWOps st (ros.map fun a => ((false : Bool), n, a)) := by
  induction ros generalizing st with
  | nil => rfl
  | cons a t ih =>
    rw [List.foldl_cons, List.map_cons]
    exact ih (make_descriptor_sealable st n a)

theorem modelRelatedAccessors_congr (x y : ModelState) (h : x.fields = y.fields)
    (n : String) : modelRelatedAccessors x n = modelRelatedAccessors y n := by
  unfold modelRelatedAccessors
  rw [h]

theorem related_objects_applyWOps (st : AppState) (l : List WOp) (n : String) :
    related_objects (applyWOps st l) n = related_objects st n := by
  unfold related_objects
  rw [applyWOps_definedNames]
  have hpt : ∀ d, (match (applyWOps st l).modelOf d with
      | some x => modelRelatedAccessors x n
      | none => []) =
      (match st.modelOf d with
      | some x => modelRelatedAccessors x n
      | none => []) := by
    intro d
    have h1 : (applyWOps st l).modelOf d = applyWOpsM st.modelOf l d := by
      rw [applyWOps_modelOf]
    have h2 := applyWOpsM_fieldsMap st.modelOf l d
    rw [h1]
    rcases h3 : st.modelOf d with _ | x
    · rw [h3] at h2
      rcases h4 : applyWOpsM st.modelOf l d with _ | y
      · rfl
      · rw [h4] at h2; simp at h2
    · rw [h3] at h2
      rcases h4 : applyWOpsM st.modelOf l d with _ | y
      · rw [h4] at h2; simp at h2
      · rw [h4] at h2
        simp only [Option.map_some'] at h2
        have h5 : y.fields = x.fields := by injection h2
        simpa using modelRelatedAccessors_congr y x h5 n
  generalize st.definedNames = ds
  induction ds with
  | nil => rfl
  | cons d rest ihd => simp only [List.flatMap_cons, hpt, ihd]

/-- `make_model_sealable` as a single micro-operation run. -/
theorem make_model_sealable_eq (st : AppState) (n : String) (m : ModelState)
    (h : st.modelOf n = some m) :
    make_model_sealable st n =
      applyWOps st (m.fields.flatMap (fieldWOps n) ++
        (related_objects st n).map fun a => ((false : Bool), n, a)) := by
  unfold make_model_sealable
  rw [h]
  show (related_objects _ n).foldl _ _ = _
  rw [mms_fields_foldl_eq, ros_foldl_eq, applyWOps_append,
    related_objects_applyWOps]

/-- A run whose direct operations all avoid model `t` leaves a
non-opted-in `t` untouched: the only operations that could reach it are
remote ones, and those check the opt-in flag. -/
theorem applyWOpsM_nonsealable_other (mo : String → Option ModelState)
    (l : List WOp) (t : String) (hs : sealableOfM mo t = false)
    (hdir : ∀ o ∈ l, o.1 = false → o.2.1 ≠ t) :
    applyWOpsM mo l t = mo t := by
  induction l generalizing mo with
  | nil => rfl
  | cons o r ih =>
    have step : applyWOpM mo o t = mo t := by
      unfold applyWOpM
      by_cases hx : t = o.2.1
      · by_cases hb : o.1
        · rw [hx]
          unfold sealableOfM at hs
          rcases hmo : mo o.2.1 with _ | m
          · simp [hmo]
          · rw [hx, hmo] at hs
            have hs' : m.sealable = false := hs
            simp [hmo, wOpFn, hb, hs']
        · have hb' : o.1 = false := by revert hb; cases o.1 <;> simp
          exact absurd hx.symm (hdir o (List.mem_cons_self ..) hb')
      · simp [hx]
    have ihs : sealableOfM (applyWOpM mo o) t = false := by
      rw [applyWOpM_sealableOfM]; exact hs
    show applyWOpsM (applyWOpM mo o) r t = mo t
    rw [ih (applyWOpM mo o) ihs
      (fun p hp => hdir p (List.mem_cons_of_mem _ hp)), step]

/-- C8: wrapping is applied at most once per (type, attribute) pair —
re-wrapping an already-wrapped accessor is a no-op because the registry does
not know the sealable classes (first conjunct, the slot-level statement for
`make_descriptor_sealable`), and running the whole retrofit
`make_model_sealable(T)` a second time leaves the registry in exactly the
state the first run produced. -/
theorem C8_wrap_at_most_once :
    (∀ (f : String → Option DescClass) (a : String),
      wrapAttrFn (wrapAttrFn f a) a = wrapAttrFn f a) ∧
    ∀ (st : AppState) (n : String),
      make_model_sealable (make_model_sealable st n) n =
        make_model_sealable st n := by
  refine ⟨wrapAttrFn_idem, fun st n => ?_⟩
  rcases h : st.modelOf n with _ | m
  · have h0 : make_model_sealable st n = st := by
      unfold make_model_sealable
      rw [h]
    rw [h0, h0]
  · have h1 := make_model_sealable_eq st n m h
    set L := m.fields.flatMap (fieldWOps n) ++
      (related_objects st n).map (fun a => ((false : Bool), n, a)) with hL
    have hf : ((applyWOps st L).modelOf n).map ModelState.fields =
        (st.modelOf n).map ModelState.fields := by
      rw [applyWOps_modelOf]; exact applyWOpsM_fieldsMap ..
    rw [h] at hf
    rcases h4 : (applyWOps st L).modelOf n with _ | m2
    · rw [h4] at hf; simp at hf
    · rw [h4] at hf
      simp only [Option.map_some'] at hf
      have hfields : m2.fields = m.fields := by injection hf
      have h3 := make_model_sealable_eq (applyWOps st L) n m2 h4
      rw [h1, h3, hfields, related_objects_applyWOps]
      exact applyWOps_twice st L

/-- C2 (amended): `make_model_sealable(T)` wraps the reverse-side accessor on
a relation target only when the target is already defined *and* opts in (is a
`SealableModel` subclass); a defined target that does not opt in is left
entirely untouched — no wrapping and no recursive retrofit.  (Such a target's
reverse accessors are wrapped only when `make_model_sealable` is invoked on
it directly, via its `related_objects` pass.) -/
theorem C2_amended_reverse_wrap_requires_optin (st : AppState) (n t : String)
    (hne : t ≠ n) :
    (sealableOf st t = false →
      (make_model_sealable st n).modelOf t = st.modelOf t) ∧
    (∀ (m tm : ModelState) (f : Field) (r : Remote) (c c' : DescClass),
      st.modelOf n = some m → f ∈ m.fields → f.remote = some r →
      r.target = t → st.modelOf t = some tm → tm.sealable = true →
      tm.attrs r.accessor = some c → sealable_descriptor_classes c = some c' →
      attrAt (make_model_sealable st n) t r.accessor = some c') := by
  constructor
  · intro hs
    rcases h : st.modelOf n with _ | m
    · unfold make_model_sealable
      rw [h]
    · rw [make_model_sealable_eq st n m h, applyWOps_modelOf]
      apply applyWOpsM_nonsealable_other
      · rw [← sealableOf_eq]; exact hs
      · intro o ho hfalse
        rcases List.mem_append.mp ho with hmem | hmem
        · rcases List.mem_flatMap.mp hmem with ⟨f, hf, hof⟩
          unfold fieldWOps at hof
          rcases List.mem_cons.mp hof with heq | htail
          · rw [heq]; exact Ne.symm hne
          · rcases hr : f.remote with _ | r
            · rw [hr] at htail; cases htail
            · rw [hr] at htail
              rw [List.mem_singleton.mp htail] at hfalse
              cases hfalse
        · rcases List.mem_map.mp hmem with ⟨a, _, heq⟩
          rw [← heq]; exact Ne.symm hne
  · intro m tm f r c c' h hf hr ht htm hseal hattr hc
    rw [attrAt_eq, make_model_sealable_eq st n m h, applyWOps_modelOf]
    apply applyWOpsM_attr_estab _ _ _ _ c c' hc
    · rw [← sealableOf_eq]
      unfold sealableOf
      rw [htm]; exact hseal
    · apply List.mem_append.mpr
      left
      apply List.mem_flatMap.mpr
      refine ⟨f, hf, ?_⟩
      unfold fieldWOps
      rw [hr]
      exact List.mem_cons_of_mem _ (List.mem_singleton.mpr (by rw [ht]))
    · left
      simp [attrAtM, htm, hattr]

/-- C2: the claim is false on the code.  In
`test_make_non_sealable_model_subclass`, `Foo` is defined when
`make_model_sealable(Bar)` runs, yet the test asserts
`assertNotIsInstance(Foo.fk_bar, SealableReverseManyToOneDescriptor)`:
the reverse accessor on the already-defined target `Foo` is *not* wrapped
(and `Foo` is not recursively made sealable), because `Foo` is not a
`SealableModel` subclass. -/
theorem C2_counterexample :
    (fooBarState.modelOf "Foo").isSome = true ∧
    attrAt (make_model_sealable fooBarState "Bar") "Bar" "fk" =
      some .sealableForwardManyToOne ∧
    attrAt (make_model_sealable fooBarState "Bar") "Foo" "fk_bar" =
      some .reverseManyToOne ∧
    attrAt (make_model_sealable fooBarState "Bar") "Foo" "fk_bar" ≠
      some .sealableReverseManyToOne := by
  decide

/-- C3: the claim is false on the code.  `Bar` in
`test_make_non_sealable_model_subclass` is a plain model without the opt-in
marker, yet `make_model_sealable(Bar)` silently succeeds and performs its
usual wrapping (the test asserts `Bar.fk` became
`SealableForwardManyToOneDescriptor`); only the spec's stated contract would
have failed. -/
theorem C3_counterexample :
    (fooBarState.modelOf "Bar").isSome = true ∧
    sealableOf fooBarState "Bar" = false ∧
    attrAt (make_model_sealable fooBarState "Bar") "Bar" "fk" =
      some .sealableForwardManyToOne ∧
    attrAt (make_model_sealable fooBarState "Bar") "Bar" "foo" =
      some .sealableDeferredAttribute ∧
    makeSealable_specContract fooBarState "Bar" =
      Except.error ⟨"seal.E001", "Bar"⟩ := by
  exact ⟨by decide, by decide, by decide, by decide, rfl⟩

/-- C3 (amended): `make_model_sealable` itself never fails — it exists to
retrofit plain models; the configuration error for a type lacking the opt-in
marker is instead reported by the startup check of a sealable manager bound
to that type (`seal.E001`, identifying the model). -/
theorem C3_amended_manager_check_reports (st : AppState) (n : String)
    (m : ModelState) (hm : st.modelOf n = some m) (hs : m.sealable = false) :
    sealableManagerCheck st n = [⟨"seal.E001", n⟩] := by
  simp [sealableManagerCheck, hm, hs]

/-- Witness for `C3_amended_manager_check_reports` at the test's `Bar`. -/
theorem C3_amended_manager_check_reports_witness :
    fooBarState.modelOf "Bar" = some barModel ∧
    barModel.sealable = false ∧
    sealableManagerCheck fooBarState "Bar" = [⟨"seal.E001", "Bar"⟩] :=
  ⟨rfl, rfl, C3_amended_manager_check_reports fooBarState "Bar" barModel rfl rfl⟩

/-- C9: the reverse-side wrap (`make_remote_field_descriptor_sealable`,
src/seal/models.py lines 44-51) first checks that the related model opts in;
for a related model that is not a `SealableModel` subclass it returns the
state entirely unchanged — no wrapping at all. -/
theorem C9_non_optin_target_untouched (st : AppState) (t acc : String)
    (m : ModelState) (hm : st.modelOf t = some m) (hs : m.sealable = false) :
    make_remote_field_descriptor_sealable st t acc = st := by
  simp [make_remote_field_descriptor_sealable, hm, hs]

/-- Witness for `C9_non_optin_target_untouched` at the test's non-opt-in
`Foo` and `Bar`'s foreign-key reverse accessor. -/
theorem C9_non_optin_target_untouched_witness :
    fooBarState.modelOf "Foo" = some fooModel ∧
    fooModel.sealable = false ∧
    make_remote_field_descriptor_sealable fooBarState "Foo" "fk_bar" =
      fooBarState :=
  ⟨rfl, rfl, C9_non_optin_target_untouched fooBarState "Foo" "fk_bar"
    fooModel rfl rfl⟩

/-- A sealable `SeaLion` model as registered before the mechanism was active
(descriptors still plain): a scalar `weight` and a foreign key `location` to
`Location` whose reverse accessor is `visitors`. -/
def seaLionModel : ModelState :=
  { name := "SeaLion", sealable := true, abstract := false, proxy := false
    fields := [⟨"weight", none⟩, ⟨"location", some ⟨"Location", "visitors"⟩⟩]
    attrs := fun a =>
      if a = "weight" then some .deferredAttribute
      else if a = "location" then some .forwardManyToOne
      else none }

/-- A sealable `Location` model with no local relation fields, carrying the
reverse accessor `visitors` contributed by `SeaLion`. -/
def locationModel : ModelState :=
  { name := "Location", sealable := true, abstract := false, proxy := false
    fields := []
    attrs := fun a => if a = "visitors" then some .reverseManyToOne else none }

/-- A registry holding both zoo models with their descriptors still plain:
the retrofit scenario `make_model_sealable` exists for. -/
def rawZooState : AppState :=
  { modelOf := fun x =>
      if x = "SeaLion" then some seaLionModel
      else if x = "Location" then some locationModel
      else none
    definedNames := ["SeaLion", "Location"]
    pending := [] }

/-- Witness for `C2_amended_reverse_wrap_requires_optin`: the non-opt-in
`Foo` is untouched by `make_model_sealable(Bar)`, while the opted-in
`Location`'s reverse accessor is wrapped by
`make_model_sealable(SeaLion)`. -/
theorem C2_amended_reverse_wrap_requires_optin_witness :
    ("Foo" ≠ "Bar") ∧
    sealableOf fooBarState "Foo" = false ∧
    (make_model_sealable fooBarState "Bar").modelOf "Foo" =
      fooBarState.modelOf "Foo" ∧
    ("Location" ≠ "SeaLion") ∧
    attrAt (make_model_sealable rawZooState "SeaLion") "Location" "visitors" =
      some .sealableReverseManyToOne := by
  refine ⟨by decide, by decide, ?_, by decide, ?_⟩
  · exact (C2_amended_reverse_wrap_requires_optin fooBarState "Bar" "Foo"
      (by decide)).1 (by decide)
  · exact (C2_amended_reverse_wrap_requires_optin rawZooState "SeaLion"
      "Location" (by decide)).2 seaLionModel locationModel
      ⟨"location", some ⟨"Location", "visitors"⟩⟩ ⟨"Location", "visitors"⟩
      .reverseManyToOne .sealableReverseManyToOne rfl (by decide) rfl rfl
      rfl rfl rfl rfl

/-! ### Order independence of type preparation

The receiver run of `class_prepared` is characterized as a list of
micro-operations plus queued Resolution-Pending Entries, both determined by
the definedness of relation targets at preparation time; preparing two types
in either order then produces permutations of the same micro-operations. -/

/-- The micro-operations the receiver performs for one field under the
definedness predicate `D`. -/
def recvFieldOps (D : String → Bool) (n : String) (f : Field) : List WOp :=
  ((false : Bool), n, f.name) :: (match f.remote with
    | none => []
    | some r => if D r.target then [((true : Bool), r.target, r.accessor)] else [])

/-- All receiver micro-operations for a field list. -/
def recvWOps (D : String → Bool) (n : String) (fs : List Field) : List WOp :=
  fs.flatMap (recvFieldOps D n)

/-- The Resolution-Pending Entries the receiver queues for one field. -/
def recvQueueField (D : String → Bool) (f : Field) : List (String × String) :=
  match f.remote with
  | none => []
  | some r => if D r.target then [] else [(r.target, r.accessor)]

/-- All entries queued over a field list. -/
def recvQueue (D : String → Bool) (fs : List Field) : List (String × String) :=
  fs.flatMap (recvQueueField D)

/-- Which models are defined in a registry. -/
def definedOf (st : AppState) : String → Bool :=
  fun t => (st.modelOf t).isSome

/-- Whether the receiver processes a model at all. -/
def recvGuard (m : ModelState) : Bool :=
  m.sealable && !(m.abstract || m.proxy)

theorem applyWOps_cons (st : AppState) (o : WOp) (l : List WOp) :
    applyWOps st (o :: l) = applyWOps (applyWOp st o) l := rfl

theorem recvWOps_cons (D : String → Bool) (n : String) (f : Field)
    (t : List Field) :
    recvWOps D n (f :: t) = recvFieldOps D n f ++ recvWOps D n t :=
  List.flatMap_cons ..

theorem recvQueue_cons (D : String → Bool) (f : Field) (t : List Field) :
    recvQueue D (f :: t) = recvQueueField D f ++ recvQueue D t :=
  List.flatMap_cons ..

theorem make_descriptor_sealable_pending_set (st : AppState)
    (p : List (String × String)) (n a : String) :
    make_descriptor_sealable { st with pending := p } n a =
      { make_descriptor_sealable st n a with pending := p } := by
  unfold make_descriptor_sealable
  rcases h : st.modelOf n with _ | m <;> simp [h]

theorem applyWOp_pending_set (st : AppState) (p : List (String × String))
    (o : WOp) :
    applyWOp { st with pending := p } o = { applyWOp st o with pending := p } := by
  obtain ⟨b, n, a⟩ := o
  cases b
  · exact make_descriptor_sealable_pending_set st p n a
  · show make_remote_field_descriptor_sealable { st with pending := p } n a =
      { make_remote_field_descriptor_sealable st n a with pending := p }
    unfold make_remote_field_descriptor_sealable
    rcases h : st.modelOf n with _ | m
    · rfl
    · show (if m.sealable = true then
          make_descriptor_sealable { st with pending := p } n a
        else { st with pending := p }) =
        { (if m.sealable = true then make_descriptor_sealable st n a else st) with
          pending := p }
      by_cases hs : m.sealable
      · rw [if_pos hs, if_pos hs, make_descriptor_sealable_pending_set]
      · rw [if_neg hs, if_neg hs]

theorem applyWOps_pending_set (st : AppState) (p : List (String × String))
    (l : List WOp) :
    applyWOps { st with pending := p } l = { applyWOps st l with pending := p } := by
  induction l generalizing st with
  | nil => rfl
  | cons o t ih =>
    rw [applyWOps_cons, applyWOp_pending_set, ih, applyWOps_cons]

theorem make_descriptor_isSome (st : AppState) (n a x : String) :
    ((make_descriptor_sealable st n a).modelOf x).isSome =
      (st.modelOf x).isSome := by
  rw [show make_descriptor_sealable st n a =
    applyWOp st ((false : Bool), n, a) from rfl, applyWOp_modelOf,
    applyWOpM_isSome]

theorem definedOf_applyWOp (st : AppState) (o : WOp) :
    definedOf (applyWOp st o) = definedOf st := by
  funext t
  unfold definedOf
  rw [applyWOp_modelOf, applyWOpM_isSome]

theorem definedOf_applyWOps (st : AppState) (l : List WOp) :
    definedOf (applyWOps st l) = definedOf st := by
  funext t
  unfold definedOf
  rw [applyWOps_modelOf, applyWOpsM_isSome]

theorem definedOf_setModel (st : AppState) (n : String) (m : ModelState) :
    definedOf (setModel st n m) = fun t =>
      if t = n then true else definedOf st t := by
  funext t
  unfold definedOf setModel
  by_cases h : t = n <;> simp [h]

theorem definedOf_initState :
    definedOf initState = fun _ => false := rfl

theorem recv_foldl_eq (n : String) (fs : List Field) (st : AppState) :
    fs.foldl (recvStep n) st =
      { applyWOps st (recvWOps (definedOf st) n fs) with
        pending := st.pending ++ recvQueue (definedOf st) fs } := by
  induction fs generalizing st with
  | nil =>
    show st = { st with pending := st.pending ++ [] }
    rw [List.append_nil]
  | cons f t ih =>
    rw [List.foldl_cons, recvWOps_cons, recvQueue_cons]
    rcases hr : f.remote with _ | r
    · have hstep : recvStep n st f = applyWOp st ((false : Bool), n, f.name) := by
        unfold recvStep
        rw [hr]
        rfl
      rw [hstep, ih, definedOf_applyWOp, applyWOp_pending]
      simp only [recvFieldOps, recvQueueField, hr, List.singleton_append,
        List.nil_append, applyWOps_cons]
    · by_cases hd : definedOf st r.target = true
      · have hstep : recvStep n st f =
            applyWOp (applyWOp st ((false : Bool), n, f.name))
              ((true : Bool), r.target, r.accessor) := by
          unfold recvStep
          rw [hr]
          show lazy_related_operation (make_descriptor_sealable st n f.name)
            r.target r.accessor = _
          unfold lazy_related_operation
          have hc : ((make_descriptor_sealable st n f.name).modelOf
              r.target).isSome = true := by
            rw [make_descriptor_isSome]; exact hd
          rw [if_pos hc]
          rfl
        rw [hstep, ih, definedOf_applyWOp, definedOf_applyWOp,
          applyWOp_pending, applyWOp_pending]
        simp only [recvFieldOps, recvQueueField, hr, hd, if_true,
          List.nil_append, applyWOps_cons, List.cons_append]
      · have hd' : definedOf st r.target = false := by
          revert hd; cases definedOf st r.target <;> simp
        have hstep : recvStep n st f =
            { applyWOp st ((false : Bool), n, f.name) with
              pending := st.pending ++ [(r.target, r.accessor)] } := by
          unfold recvStep
          rw [hr]
          show lazy_related_operation (make_descriptor_sealable st n f.name)
            r.target r.accessor = _
          unfold lazy_related_operation
          have hc : ((make_descriptor_sealable st n f.name).modelOf
              r.target).isSome = false := by
            rw [make_descriptor_isSome]; exact hd'
          rw [if_neg (by rw [hc]; simp)]
          rw [show (make_descriptor_sealable st n f.name).pending = st.pending
            from applyWOp_pending st ((false : Bool), n, f.name)]
          rfl
        rw [hstep, ih, applyWOps_pending_set]
        have hDeq : definedOf { applyWOp st ((false : Bool), n, f.name) with
            pending := st.pending ++ [(r.target, r.accessor)] } = definedOf st := by
          show definedOf (applyWOp st ((false : Bool), n, f.name)) = definedOf st
          exact definedOf_applyWOp st _
        rw [hDeq]
        simp only [recvFieldOps, recvQueueField, hr, hd', if_false,
          Bool.false_eq_true, List.nil_append, applyWOps_cons,
          List.singleton_append, List.cons_append, List.append_assoc]

theorem mfds_eq (st : AppState) (m : ModelState) :
    make_field_descriptors_sealable st m =
      if recvGuard m then
        { applyWOps st (recvWOps (definedOf st) m.name m.fields) with
          pending := st.pending ++ recvQueue (definedOf st) m.fields }
      else st := by
  unfold make_field_descriptors_sealable recvGuard
  by_cases h1 : m.sealable
  · by_cases h2 : m.abstract || m.proxy
    · simp [h1, h2]
    · simp only [h1, h2]
      simp only [Bool.true_eq_false, if_false, Bool.false_eq_true,
        Bool.not_false, Bool.and_true, if_true]
      rw [recv_foldl_eq]
  · have h1' : m.sealable = false := by revert h1; cases m.sealable <;> simp
    simp [h1', h1]

theorem drainPending_eq (st : AppState) (n : String) :
    drainPending st n =
      applyWOps { st with pending := st.pending.filter (fun p => !(p.1 == n)) }
        ((st.pending.filter (fun p => p.1 == n)).map fun p =>
          ((true : Bool), p.1, p.2)) := by
  unfold drainPending applyWOps
  rw [List.foldl_map]
  rfl

theorem modelOf_pending_set (st : AppState) (p : List (String × String)) :
    ({ st with pending := p } : AppState).modelOf = st.modelOf := rfl

theorem class_prepared_eq (st : AppState) (m : ModelState) :
    class_prepared st m =
      { applyWOps (setModel st m.name m)
          (((st.pending.filter (fun p => p.1 == m.name)).map fun p =>
              ((true : Bool), p.1, p.2)) ++
            (if recvGuard m then
              recvWOps (definedOf (setModel st m.name m)) m.name m.fields
            else [])) with
        pending := st.pending.filter (fun p => !(p.1 == m.name)) ++
          (if recvGuard m then
            recvQueue (definedOf (setModel st m.name m)) m.fields
          else []) } := by
  unfold class_prepared
  rw [drainPending_eq]
  rw [show (setModel st m.name m).pending = st.pending from rfl]
  rw [applyWOps_pending_set, mfds_eq]
  set dOps := (st.pending.filter (fun p => p.1 == m.name)).map fun p =>
    ((true : Bool), p.1, p.2) with hdOps
  set rest := st.pending.filter (fun p => !(p.1 == m.name)) with hrest
  have hD : definedOf { applyWOps (setModel st m.name m) dOps with
      pending := rest } = definedOf (setModel st m.name m) := by
    show definedOf (applyWOps (setModel st m.name m) dOps) = _
    exact definedOf_applyWOps ..
  by_cases hg : recvGuard m
  · rw [if_pos hg, if_pos hg, if_pos hg, hD]
    rw [show ({ applyWOps (setModel st m.name m) dOps with
      pending := rest } : AppState).pending = rest from rfl]
    rw [applyWOps_pending_set, applyWOps_append]
  · rw [if_neg hg, if_neg hg, if_neg hg, List.append_nil, List.append_nil]

/-- Pushing a registry entry for a model none of the operations target
through an operation run. -/
theorem applyWOpM_update (mo : String → Option ModelState) (n : String)
    (m : ModelState) (o : WOp) (hno : o.2.1 ≠ n) :
    applyWOpM (fun x => if x = n then some m else mo x) o =
      fun x => if x = n then some m else applyWOpM mo o x := by
  funext x
  unfold applyWOpM
  by_cases hx : x = o.2.1
  · simp [hx, hno]
  · by_cases hxn : x = n
    · simp [hx, hxn, Ne.symm hno]
    · simp [hx, hxn]

theorem applyWOpsM_update (mo : String → Option ModelState) (n : String)
    (m : ModelState) (l : List WOp) (h : ∀ o ∈ l, o.2.1 ≠ n) :
    applyWOpsM (fun x => if x = n then some m else mo x) l =
      fun x => if x = n then some m else applyWOpsM mo l x := by
  induction l generalizing mo with
  | nil => rfl
  | cons o t ih =>
    show applyWOpsM (applyWOpM (fun x => if x = n then some m else mo x) o) t = _
    rw [applyWOpM_update mo n m o (h o (List.mem_cons_self ..)),
      ih (applyWOpM mo o) (fun p hp => h p (List.mem_cons_of_mem _ hp))]
    rfl

/-- Every receiver operation targets either the prepared model itself or a
model that was defined at preparation time. -/
theorem recvWOps_targets (D : String → Bool) (n : String) (fs : List Field) :
    ∀ o ∈ recvWOps D n fs, o.2.1 = n ∨ D o.2.1 = true := by
  intro o ho
  rcases List.mem_flatMap.mp ho with ⟨f, _, hof⟩
  unfold recvFieldOps at hof
  rcases List.mem_cons.mp hof with heq | htail
  · left; rw [heq]
  · rcases hr : f.remote with _ | r
    · rw [hr] at htail
      exact absurd htail (List.not_mem_nil o)
    · rw [hr] at htail
      have htail' : o ∈ (if D r.target = true
          then [((true : Bool), r.target, r.accessor)] else []) := htail
      by_cases hd : D r.target
      · rw [if_pos hd] at htail'
        right
        rw [List.mem_singleton.mp htail']
        exact hd
      · rw [if_neg hd] at htail'
        exact absurd htail' (List.not_mem_nil o)

theorem definedOf_setModel_init (n : String) (m : ModelState) :
    definedOf (setModel initState n m) = fun t => decide (t = n) := by
  rw [definedOf_setModel]
  funext t
  by_cases h : t = n <;> simp [h, definedOf_initState]

/-- The reverse-side operations that drain for model `bn` out of the queue a
receiver run under `D` left behind, attributed field by field. -/
def queuedOpsTo (D : String → Bool) (bn : String) (f : Field) : List WOp :=
  match f.remote with
  | none => []
  | some r =>
    if D r.target then []
    else if r.target = bn then [((true : Bool), r.target, r.accessor)] else []

/-- Enlarging the definedness predicate by one model turns each field's
immediate operations into the old immediate operations followed by the
operations its queue entry for that model would drain into. -/
theorem recvFieldOps_enlarge (D : String → Bool) (n bn : String) (f : Field) :
    recvFieldOps (fun t => D t || decide (t = bn)) n f =
      recvFieldOps D n f ++ queuedOpsTo D bn f := by
  unfold recvFieldOps queuedOpsTo
  rcases hr : f.remote with _ | r
  · simp
  · by_cases h1 : D r.target
    · simp [h1]
    · by_cases h2 : r.target = bn
      · subst h2
        simp [h1]
      · simp [h1, h2]

/-- The queue a receiver run leaves, filtered to one target and turned into
reverse-side operations, is the per-field drained-operation list. -/
theorem drained_ops_eq (D : String → Bool) (bn : String) (fs : List Field) :
    ((recvQueue D fs).filter (fun p => p.1 == bn)).map
        (fun p => ((true : Bool), p.1, p.2)) =
      fs.flatMap (queuedOpsTo D bn) := by
  induction fs with
  | nil => rfl
  | cons f t ih =>
    rw [recvQueue_cons, List.filter_append, List.map_append, ih,
      List.flatMap_cons]
    congr 1
    unfold recvQueueField queuedOpsTo
    rcases hr : f.remote with _ | r
    · rfl
    · by_cases h1 : D r.target
      · simp [h1]
      · by_cases h2 : r.target = bn
        · subst h2
          simp [h1]
        · simp [h1, h2]

theorem flatMap_perm_append {α β : Type} (fs : List α) (g2 g1 q : α → List β)
    (h : ∀ f ∈ fs, g2 f = g1 f ++ q f) :
    (fs.flatMap g2).Perm ((fs.flatMap g1) ++ (fs.flatMap q)) := by
  induction fs with
  | nil => simp
  | cons f t ih =>
    rw [List.flatMap_cons, List.flatMap_cons, List.flatMap_cons,
      h f (List.mem_cons_self ..)]
    refine List.Perm.trans (List.Perm.append_left _
      (ih fun f hf => h f (List.mem_cons_of_mem _ hf))) ?_
    rw [List.append_assoc, List.append_assoc]
    apply List.Perm.append_left
    rw [← List.append_assoc, ← List.append_assoc]
    exact List.Perm.append_right _ List.perm_append_comm

theorem recvWOps_enlarge_perm (D : String → Bool) (n bn : String)
    (fs : List Field) :
    (recvWOps (fun t => D t || decide (t = bn)) n fs).Perm
      (recvWOps D n fs ++ fs.flatMap (queuedOpsTo D bn)) :=
  flatMap_perm_append fs _ _ _ fun f _ => recvFieldOps_enlarge D n bn f

/-- Preparing `X` on an empty registry and then `Y` amounts to: register
both, run `X`'s receiver with only `X` defined, drain `X`'s pending entries
targeting `Y`, and run `Y`'s receiver with both defined. -/
theorem two_prep_modelOf (X Y : ModelState) (hne : Y.name ≠ X.name) :
    (class_prepared (class_prepared initState X) Y).modelOf =
      applyWOpsM
        (fun z => if z = X.name then some X else if z = Y.name then some Y
          else none)
        ((if recvGuard X then
            recvWOps (fun t => decide (t = X.name)) X.name X.fields
          else []) ++
         ((if recvGuard X then
             X.fields.flatMap (queuedOpsTo (fun t => decide (t = X.name)) Y.name)
           else []) ++
          (if recvGuard Y then
            recvWOps (fun t => decide (t = X.name) || decide (t = Y.name))
              Y.name Y.fields
          else []))) := by
  have hD1 : definedOf (setModel initState X.name X) =
      fun t => decide (t = X.name) := definedOf_setModel_init X.name X
  have h1 : class_prepared initState X =
      { applyWOps (setModel initState X.name X)
          (if recvGuard X then
            recvWOps (fun t => decide (t = X.name)) X.name X.fields
          else []) with
        pending := if recvGuard X then
            recvQueue (fun t => decide (t = X.name)) X.fields
          else [] } := by
    rw [class_prepared_eq, hD1]
    simp only [initState, List.filter_nil, List.map_nil, List.nil_append]
  have hP1pend : (class_prepared initState X).pending =
      (if recvGuard X then
        recvQueue (fun t => decide (t = X.name)) X.fields
      else []) := by
    rw [h1]
  have hP1modelOf : (class_prepared initState X).modelOf =
      applyWOpsM (fun z => if z = X.name then some X else none)
        (if recvGuard X then
          recvWOps (fun t => decide (t = X.name)) X.name X.fields
        else []) := by
    rw [h1]
    show (applyWOps (setModel initState X.name X) _).modelOf = _
    rw [applyWOps_modelOf]
    rfl
  have hP1defined : definedOf (class_prepared initState X) =
      fun t => decide (t = X.name) := by
    rw [h1]
    show definedOf (applyWOps (setModel initState X.name X) _) = _
    rw [definedOf_applyWOps, hD1]
  have hD2 : definedOf (setModel (class_prepared initState X) Y.name Y) =
      fun t => decide (t = X.name) || decide (t = Y.name) := by
    funext t
    simp only [definedOf_setModel, hP1defined]
    by_cases h : t = Y.name <;> simp [h]
  have hLXtargets : ∀ o ∈ (if recvGuard X then
      recvWOps (fun t => decide (t = X.name)) X.name X.fields else []),
      o.2.1 ≠ Y.name := by
    intro o ho
    by_cases hg : recvGuard X
    · rw [if_pos hg] at ho
      rcases recvWOps_targets _ _ _ o ho with h | h
      · rw [h]; exact Ne.symm hne
      · rw [of_decide_eq_true h]; exact Ne.symm hne
    · rw [if_neg hg] at ho
      exact absurd ho (List.not_mem_nil o)
  show (class_prepared (class_prepared initState X) Y).modelOf = _
  rw [class_prepared_eq]
  show (applyWOps (setModel (class_prepared initState X) Y.name Y) _).modelOf = _
  rw [applyWOps_modelOf]
  have hdOps : (((class_prepared initState X).pending.filter
        (fun p => p.1 == Y.name)).map fun p => ((true : Bool), p.1, p.2)) =
      (if recvGuard X then
        X.fields.flatMap (queuedOpsTo (fun t => decide (t = X.name)) Y.name)
      else []) := by
    rw [hP1pend]
    by_cases hg : recvGuard X
    · rw [if_pos hg, if_pos hg, drained_ops_eq]
    · rw [if_neg hg, if_neg hg, List.filter_nil, List.map_nil]
  rw [hdOps, hD2]
  have hsetM : (setModel (class_prepared initState X) Y.name Y).modelOf =
      applyWOpsM
        (fun z => if z = X.name then some X else if z = Y.name then some Y
          else none)
        (if recvGuard X then
          recvWOps (fun t => decide (t = X.name)) X.name X.fields
        else []) := by
    show (fun x => if x = Y.name then some Y
      else (class_prepared initState X).modelOf x) = _
    simp only [hP1modelOf]
    rw [← applyWOpsM_update _ Y.name Y _ hLXtargets]
    refine congrArg (fun mo => applyWOpsM mo _) ?_
    funext z
    by_cases hz : z = Y.name
    · have hz2 : ¬z = X.name := fun hh => hne (hz.symm.trans hh)
      simp [hz, hz2, hne]
    · by_cases hz2 : z = X.name <;> simp [hz, hz2, hne, Ne.symm hne]
  rw [hsetM, ← applyWOpsM_append]

/-- C6: for two entity types `A` and `B` with a forward relation from `A` to
`B` declared before `B` is defined, preparing `A` then `B` yields guard
behaviour identical to preparing `B` then `A`: every model's registered
state — which accessors are guarded, and hence how sealed and unsealed
accesses behave — is the same under both preparation orders.  (`A`'s
reverse-side wrap of `B` is queued and drained when `B` is prepared in one
order, and runs immediately in the other; both runs apply the same
commuting wrap operations.) -/
theorem C6_preparation_order_independent (A B : ModelState)
    (hname : A.name ≠ B.name)
    (hrel : ∃ f ∈ A.fields, ∃ r : Remote,
      f.remote = some r ∧ r.target = B.name) :
    ∀ n, (class_prepared (class_prepared initState A) B).modelOf n =
      (class_prepared (class_prepared initState B) A).modelOf n := by
  intro n
  rw [two_prep_modelOf A B (Ne.symm hname), two_prep_modelOf B A hname]
  have hbase : (fun z => if z = B.name then some B
      else if z = A.name then some A else none) =
      (fun z => if z = A.name then some A
      else if z = B.name then some B else none) := by
    funext z
    by_cases hz : z = A.name
    · have hz2 : ¬z = B.name := fun hh => hname (hz.symm.trans hh)
      simp [hz, hz2, hname, Ne.symm hname]
    · by_cases hz2 : z = B.name <;> simp [hz, hz2, hname, Ne.symm hname]
  rw [hbase]
  refine congrFun (applyWOpsM_perm _ ?_) n
  have hor : (fun t => decide (t = B.name) || decide (t = A.name)) =
      (fun t => decide (t = A.name) || decide (t = B.name)) := by
    funext t
    exact Bool.or_comm ..
  rw [hor]
  have hA : ((if recvGuard A then
      recvWOps (fun t => decide (t = A.name)) A.name A.fields else []) ++
      (if recvGuard A then
        A.fields.flatMap (queuedOpsTo (fun t => decide (t = A.name)) B.name)
      else [])).Perm
      (if recvGuard A then
        recvWOps (fun t => decide (t = A.name) || decide (t = B.name))
          A.name A.fields
      else []) := by
    by_cases hg : recvGuard A
    · rw [if_pos hg, if_pos hg, if_pos hg]
      exact (recvWOps_enlarge_perm (fun t => decide (t = A.name))
        A.name B.name A.fields).symm
    · rw [if_neg hg, if_neg hg, if_neg hg]
      simp
  have hB : ((if recvGuard B then
      recvWOps (fun t => decide (t = B.name)) B.name B.fields else []) ++
      (if recvGuard B then
        B.fields.flatMap (queuedOpsTo (fun t => decide (t = B.name)) A.name)
      else [])).Perm
      (if recvGuard B then
        recvWOps (fun t => decide (t = A.name) || decide (t = B.name))
          B.name B.fields
      else []) := by
    by_cases hg : recvGuard B
    · rw [if_pos hg, if_pos hg, if_pos hg, ← hor]
      exact (recvWOps_enlarge_perm (fun t => decide (t = B.name))
        B.name A.name B.fields).symm
    · rw [if_neg hg, if_neg hg, if_neg hg]
      simp
  rw [← List.append_assoc, ← List.append_assoc]
  exact ((hA.append_right _).trans List.perm_append_comm).trans
    (hB.symm.append_right _)

/-- Witness for `C6_preparation_order_independent` at the zoo models:
`SeaLion` declares a foreign key to `Location`; preparing them in either
order registers the same wrapped `Location`. -/
theorem C6_preparation_order_independent_witness :
    seaLionModel.name ≠ locationModel.name ∧
    (class_prepared (class_prepared initState seaLionModel)
        locationModel).modelOf "Location" =
      (class_prepared (class_prepared initState locationModel)
        seaLionModel).modelOf "Location" :=
  ⟨by decide, C6_preparation_order_independent seaLionModel locationModel
    (by decide)
    ⟨⟨"location", some ⟨"Location", "visitors"⟩⟩, by decide,
      ⟨"Location", "visitors"⟩, rfl, rfl⟩ "Location"⟩

end Seal
